import Mathlib

/-!
Verification of the ELM327 OBD-II scanner core (`main.py`).

Reply text is modelled as `List Char`; Python integers are `Int` (or `Nat`
where the source value is provably a byte); Python floats arising from the
scaling formulas and sleep durations are modelled as `ℚ`.  Fallible Python
operations (`int(s, 16)`, list indexing inside `try` blocks) are modelled
with `Option`/`Except`.
-/

namespace OBD

/-- Whitespace characters recognised by Python `str.strip()` and by
`int(s, base)` argument stripping (ASCII fragment). -/
def isPyWspace (c : Char) : Bool :=
  c = ' ' || c = '\t' || c = '\n' || c = '\x0d' || c = '\x0b' || c = '\x0c'

/-- Python `str.strip()`: drop whitespace from both ends. -/
def pyStrip (s : List Char) : List Char :=
  ((s.dropWhile isPyWspace).reverse.dropWhile isPyWspace).reverse

/-- Python `str.zfill(n)`: left-pad with zeros to length `n`. -/
def zfill (n : Nat) (s : List Char) : List Char :=
  List.replicate (n - s.length) '0' ++ s

/-- Value of a single hexadecimal digit character, if it is one
(48..57 are the codes of '0'..'9', 97..102 of 'a'..'f', 65..70 of
'A'..'F'). -/
def hexVal (c : Char) : Option Nat :=
  if 48 ≤ c.toNat ∧ c.toNat ≤ 57 then some (c.toNat - 48)
  else if 97 ≤ c.toNat ∧ c.toNat ≤ 102 then some (c.toNat - 87)
  else if 65 ≤ c.toNat ∧ c.toNat ≤ 70 then some (c.toNat - 55)
  else none

/-- Python `int(p, 16)` on a two-character string `p = c1 c2`: two hex
digits give a byte value; a sign (`+`/`-`) or a stray whitespace character
next to a single hex digit still parses (Python `int` strips whitespace and
accepts a sign); anything else raises `ValueError` (`none`). -/
def pyIntHex2 (c1 c2 : Char) : Option Int :=
  match hexVal c1, hexVal c2 with
  | some v1, some v2 => some ((16 * v1 + v2 : Nat) : Int)
  | _, _ =>
    if c1 = '-' then (hexVal c2).map (fun v => -(v : Int))
    else if c1 = '+' then (hexVal c2).map (fun v => ((v : Nat) : Int))
    else if isPyWspace c1 then (hexVal c2).map (fun v => ((v : Nat) : Int))
    else if isPyWspace c2 then (hexVal c1).map (fun v => ((v : Nat) : Int))
    else none

/-- The list comprehension in `_parse_hex_response`: decode consecutive
2-character groups; the first group that fails to parse raises, which the
caller's `except` turns into an empty result (`none` here). -/
def hexPairs : List Char → Option (List Int)
  | [] => some []
  | c1 :: c2 :: rest =>
    match pyIntHex2 c1 c2, hexPairs rest with
    | some v, some vs => some (v :: vs)
    | _, _ => none
  | [_] => none

/-- Python `pat in s` made executable: does `s` start with `pat`? -/
def beginsWith : List Char → List Char → Bool
  | [], _ => true
  | _ :: _, [] => false
  | p :: ps, c :: cs => p == c && beginsWith ps cs

/-- Python substring test `pat in s`. -/
def containsTok : List Char → List Char → Bool
  | pat, [] => pat.isEmpty
  | pat, c :: rest => beginsWith pat (c :: rest) || containsTok pat rest

/-- The sentinel tokens checked by `_parse_hex_response`
(`error_responses` in the source). -/
def errorTokens : List (List Char) :=
  [('N' :: 'O' :: 'D' :: 'A' :: 'T' :: 'A' :: []),
   ('E' :: 'R' :: 'R' :: 'O' :: 'R' :: []),
   ('T' :: 'I' :: 'M' :: 'E' :: 'O' :: 'U' :: 'T' :: []),
   ('?' :: []),
   ('U' :: 'N' :: 'A' :: 'B' :: 'L' :: 'E' :: 'T' :: 'O' :: 'C' :: 'O' :: 'N' :: 'N' :: 'E' :: 'C' :: 'T' :: []),
   ('B' :: 'U' :: 'S' :: 'B' :: 'U' :: 'S' :: 'Y' :: [])]

/-- Sentinel detection in `_parse_hex_response`:
`any(err in clean_response.upper() for err in error_responses)`. -/
def hasErrToken (clean : List Char) : Bool :=
  errorTokens.any (fun e => containsTok e (clean.map Char.toUpper))

/-- Space/CR/LF removal at the start of `_parse_hex_response`
(`response.replace(' ', '').replace('\x5cr', '').replace('\x5cn', '')`). -/
def cleanHex (response : List Char) : List Char :=
  response.filter (fun c => !(c = ' ' || c = '\x0d' || c = '\n'))

/-- ELM327Scanner._parse_hex_response: clean the text, return `[]` on any
sentinel token or odd length or unparsable pair, otherwise the byte list. -/
def parse_hex_response (response : List Char) : List Int :=
  let clean := cleanHex response
  if hasErrToken clean then []
  else if clean.length % 2 = 0 then (hexPairs clean).getD []
  else []

example : parse_hex_response ("A111".toList) = [161, 17] := by decide

example : parse_hex_response ("41 0C 1A F8".toList) = [65, 12, 26, 248] := by decide

example : parse_hex_response ("NO DATA".toList) = [] := by decide

example : parse_hex_response ("A11".toList) = [] := by decide

example : parse_hex_response ("-1".toList) = [-1] := by decide

/-! Response post-processing of `_send_command`. -/

/-- Response post-processing in `_send_command`: the accumulated reply has
carriage returns, line feeds and the `>` prompt removed and is stripped;
when the result begins with an echo of the sent command the source merely
strips again (the echo itself is kept). The failure paths of
`_send_command` return the empty text, which is not modelled here. -/
def sendCommand_clean (command response : List Char) : List Char :=
  let r := pyStrip (response.filter (fun c => !(c = '\x0d' || c = '\n' || c = '>')))
  if beginsWith command r then pyStrip r else r

/-! Diagnostic trouble code codec. -/

/-- Uppercase hexadecimal rendering of a natural number, as Python `"%X"`. -/
def pyHexStr (n : Nat) : List Char := (Nat.toDigits 16 n).map Char.toUpper

/-- Python `f"{v:04X}"`: at least four digits, zero padded, sign first for
negative values (the width counts the sign). -/
def pyFmt04X (v : Int) : List Char :=
  if v < 0 then '-' :: zfill 3 (pyHexStr v.natAbs) else zfill 4 (pyHexStr v.toNat)

/-- The dictionary lookup `{0:'P',1:'C',2:'B',3:'U'}.get(system_bits, 'P')`
in `_decode_dtc`. -/
def system_map (n : Int) : Char :=
  if n = 0 then 'P' else if n = 1 then 'C' else if n = 2 then 'B'
  else if n = 3 then 'U' else 'P'

/-- ELM327Scanner._decode_dtc: a two-byte field becomes a system letter
(top two bits of the first byte) followed by the 14 remaining bits rendered
with `f"..04X.."`; any other length yields the empty string. -/
def decode_dtc (dtc_bytes : List Int) : List Char :=
  match dtc_bytes with
  | [b1, b2] =>
    let system_bits : Int := Int.land b1 0xC0 >>> (6 : Int)
    let code_value : Int := Int.lor (Int.land b1 0x3F <<< (8 : Int)) b2
    system_map system_bits :: pyFmt04X code_value
  | _ => []

/-- The pairing loop of `get_dtcs`: walk the parsed bytes two at a time,
stop on an incomplete trailing pair, skip `(0, 0)` pairs, decode the rest
and keep the non-empty codes. -/
def dtcCodes : List Int → List (List Char)
  | b1 :: b2 :: rest =>
    if b1 = 0 ∧ b2 = 0 then dtcCodes rest
    else if decode_dtc [b1, b2] = [] then dtcCodes rest
    else decode_dtc [b1, b2] :: dtcCodes rest
  | _ => []

example : decode_dtc [1, 35] = ("P0123".toList) := by decide

example : decode_dtc [65, 35] = ("C0123".toList) := by decide

/-! Supported-parameter bitmap scanner. -/

/-- The token `"NODATA"` tested by several reply guards. -/
def nodataTok : List Char := ('N' :: 'O' :: 'D' :: 'A' :: 'T' :: 'A' :: [])

/-- Inner double loop of `get_supported_pids`: `enumerate(pid_data)` is
modelled by the explicit `byte_idx` argument; for each set bitmap bit the
source appends the string `f"..mode..pid_num:02X.."`, which for a fixed
mode is determined by the parameter number, so the model collects the
parameter numbers themselves. -/
def bitmapPids (base_pid : Nat) : Nat → List Int → List Nat
  | _, [] => []
  | byte_idx, byte_val :: rest =>
    ((List.range 8).filterMap (fun bit_idx =>
      if Int.land byte_val (((0x80 >>> bit_idx : Nat) : Int)) ≠ 0 then
        (if base_pid + byte_idx * 8 + bit_idx + 1 ≤ 255 then
          some (base_pid + byte_idx * 8 + bit_idx + 1) else none)
      else none))
    ++ bitmapPids base_pid (byte_idx + 1) rest

/-- One `pid_range` iteration of `get_supported_pids`: skip empty or
NODATA replies, parse the hex frame, require at least mode+PID+4 bytes,
then read the 4-byte bitmap `data[2:6]`. -/
def pidNumsForRange (base_pid : Nat) (response : List Char) : List Nat :=
  if response ≠ [] ∧ containsTok nodataTok (response.map Char.toUpper) = false then
    let data := parse_hex_response response
    if 6 ≤ data.length then bitmapPids base_pid 0 ((data.drop 2).take 4) else []
  else []

example : bitmapPids 0 0 [255, 0, 0, 1] = [1, 2, 3, 4, 5, 6, 7, 8, 32] := by decide

/-! Streaming worker timing and history buffers. -/

/-- Sleep duration at the end of each `_stream_worker` iteration:
`time.sleep(max(0.1, interval - 0.1))`; floats are modelled as rationals.
The subtracted quantity is the constant `0.1`, not the elapsed time of the
pass. -/
def stream_sleep (interval : ℚ) : ℚ := max (1 / 10) (interval - 1 / 10)

/-- Python `collections.deque(maxlen := m).append`: append on the right,
evicting from the left once the capacity is exceeded. -/
def dequeAppend (m : Nat) (q : List α) (x : α) : List α :=
  let q' := q ++ [x]
  if m < q'.length then q'.drop (q'.length - m) else q'

/-- The per-parameter history after a sequence of appended ticks, starting
from the empty buffer created by `start_live_data_stream`
(`deque(maxlen=50)`); the worker appends one entry per successful reading. -/
def historyAfter (m : Nat) (xs : List α) : List α := xs.foldl (dequeAppend m) []

/-! Signal decoder (`read_pid` / `signals_values`) data model. -/

/-- The heterogeneous `'value'` field of a signal dict: a scaled float on
the numeric path, the whole bit string on the fallback path. -/
inductive SigVal where
  | num : ℚ → SigVal
  | raw : List Char → SigVal
deriving DecidableEq

/-- One emitted signal dict of `read_pid` (keys value/path/name/unit). -/
structure SignalValue where
  value : SigVal
  path : List Char
  name : List Char
  unit : List Char
deriving DecidableEq

/-- One named entry of a catalog `"signals"` table: bit length, optional
bit index (the source supplies 0 via `setdefault` when absent), scaling
formula, and the labels copied into emitted signal dicts. -/
structure SignalDefinition where
  name : List Char
  path : List Char
  unit : List Char
  bit_length : Nat
  bit_index : Option Nat
  formula : Nat → ℚ

/-- A parameter catalog entry (`PIDDatabase.PIDS[pid]`). -/
structure ParameterDefinition where
  name : List Char
  signals : List SignalDefinition

/-- SensorReading as produced by `read_pid`; the wall-clock timestamp field
is omitted. -/
structure SensorReading where
  pid : List Char
  name : List Char
  signals : List SignalValue
  raw_data : List Char
deriving DecidableEq

/-- Python slice endpoint normalisation for a sequence of length `n`. -/
def pySliceIdx (n : Nat) (i : Int) : Nat :=
  (if i < 0 then max ((n : Int) + i) 0 else min i (n : Int)).toNat

/-- Python `xs[a:b]`. -/
def pySlice (xs : List α) (a b : Int) : List α :=
  (xs.take (pySliceIdx xs.length b)).drop (pySliceIdx xs.length a)

/-- ELM327Scanner.signals_values. In the source `dbits` is assigned
`bits_list` — not the `data_bits` argument, which is never used — so each
produced "value" `dbits[b[1]:b[0]-1]` is a slice of `bits_list` itself, a
list of (bit_length, bit_index) pairs rather than a piece of the bit
string. -/
def signals_values (bits_list : List (Nat × Nat)) (data_bits : List Char) :
    List (List (Nat × Nat)) :=
  let dbits := bits_list
  let _ := data_bits
  bits_list.map (fun b => pySlice dbits (b.2 : Int) ((b.1 : Int) - 1))

/-- Python `int(x, 2)` applied to a list value: `int` with an explicit base
requires a string or bytes-like argument, so this raises TypeError for
every list, whatever its contents. -/
def pyIntBase2OfListVal (x : List (Nat × Nat)) : Option Nat :=
  let _ := x
  none

/-- The numeric-decoding loop over the catalog signals in `read_pid`.
The Python condition `bit_length/8 >= 1` holds exactly when
`1 ≤ bit_length / 8` on naturals. `Except` models the enclosing `try`:
an error carries the partially built `signals_list`, because appends made
before the raising iteration survive in the source. -/
def readPidLoop (signalsv : List (List (Nat × Nat))) :
    List SignalDefinition → Nat → List SignalValue →
    Except (List SignalValue) (List SignalValue)
  | [], _, acc => .ok acc
  | s :: rest, c, acc =>
    if 1 ≤ s.bit_length / 8 then
      match signalsv.get? c with
      | none => .error acc
      | some sv =>
        match pyIntBase2OfListVal sv with
        | none => .error acc
        | some num =>
          readPidLoop signalsv rest (c + 1)
            (acc ++ [⟨.num (s.formula num), s.path, s.name, s.unit⟩])
    else readPidLoop signalsv rest (c + 1) acc

/-- The whole `try/except` signal-decoding block of `read_pid`: on any
exception the catch-all raw-bitstring dict is appended to whatever was
built so far. -/
def read_pid_signals (sigs : List SignalDefinition) (bits : List Char) :
    List SignalValue :=
  let bits_list := sigs.map (fun s => (s.bit_length, s.bit_index.getD 0))
  let signalsv := signals_values bits_list bits
  match readPidLoop signalsv sigs 0 [] with
  | .ok l => l
  | .error l =>
      l ++ [⟨.raw bits, "everything".toList, "everything".toList, []⟩]

/-- Python `int(s, 16)` on the raw reply text, as used by `read_pid` to
build the bit string; modelled for nonempty plain hex-digit strings,
`none` (ValueError, caught by the outer `except`, returning None)
otherwise. -/
def pyIntHexStr (s : List Char) : Option Nat :=
  if s = [] then none
  else s.foldl
    (fun acc c =>
      match acc, hexVal c with
      | some a, some v => some (a * 16 + v)
      | _, _ => none)
    (some 0)

/-- Python `bin(v)[2:]` — binary digits, most significant first. -/
def pyBinStr (v : Nat) : List Char := Nat.toDigits 2 v

/-- ELM327Scanner.read_pid on the raw reply text for one command, given
the catalog entry for the pid (the `pids` module is external catalog data;
the entries used in theorems are modelled from the spec). Returns `none`
where the source returns None: empty or NODATA reply, an unparsable reply
(ValueError in `int(response, 16)`), or fewer than mode+PID+1 parsed
bytes. The source also computes `data_bytes = data[2:]` but never uses it
in the decoding that follows. -/
def read_pid (info : ParameterDefinition) (pid : List Char)
    (response : List Char) : Option SensorReading :=
  if response = [] ∨ containsTok nodataTok (response.map Char.toUpper) then none
  else
    match pyIntHexStr response with
    | none => none
    | some v =>
      let bits := zfill (response.length * 4) (pyBinStr v)
      let data := parse_hex_response response
      if data.length < 3 then none
      else some ⟨pid, info.name, read_pid_signals info.signals bits, response⟩

/-- Modelled from the spec: the external parameter-catalog entry for
`"010C"` (engine RPM) from the `pids` module, which is not among the
repository's source files. Per the spec it has one 16-bit signal whose
window starts after the 16 echoed mode+PID bits of the reply and whose
scaling formula divides the unsigned window value by 4
((byte0*256+byte1)/4). -/
def pid010C : ParameterDefinition :=
  { name := "Engine RPM".toList
  , signals :=
      [{ name := "rpm".toList
       , path := "engine.rpm".toList
       , unit := "rpm".toList
       , bit_length := 16
       , bit_index := some 16
       , formula := fun n => (n : ℚ) / 4 }] }

/-! Bridge lemmas between the executable Python-style tests and the
corresponding list predicates. -/

theorem beginsWith_iff (p s : List Char) : beginsWith p s = true ↔ p <+: s := by
  induction p generalizing s with
  | nil => simp [beginsWith]
  | cons a p ih =>
    cases s with
    | nil => simp [beginsWith]
    | cons b t => simp [beginsWith, ih, List.cons_prefix_cons]

theorem containsTok_iff (p s : List Char) : containsTok p s = true ↔ p <:+: s := by
  induction s with
  | nil => simp [containsTok, List.isEmpty_iff]
  | cons c t ih =>
    simp [containsTok, beginsWith_iff, ih, List.infix_cons_iff]

theorem mem_pyStrip {c : Char} {s : List Char} (h : c ∈ pyStrip s) : c ∈ s := by
  unfold pyStrip at h
  rw [List.mem_reverse] at h
  have h2 := (List.dropWhile_sublist (l := (s.dropWhile isPyWspace).reverse)
    (p := isPyWspace)).mem h
  rw [List.mem_reverse] at h2
  exact (List.dropWhile_sublist (l := s) (p := isPyWspace)).mem h2

/-! C2 — `_send_command` reply cleaning. -/

/-- C2: the text `_send_command` returns never contains a carriage return,
a line feed or the `>` prompt character; but the claimed removal of a
leading echo of the sent command does not happen — the echo branch of the
source only strips again, so for the command "ATZ" and accumulated raw
reply "ATZ\x0dOK\x0d\x0d>" the returned text is "ATZOK", which still
begins with the echoed command instead of being reduced to "OK". -/
theorem sendCommand_clean_echo_bug :
    (∀ command response : List Char,
      (sendCommand_clean command response).all
        (fun c => !(c = '\x0d' || c = '\n' || c = '>')) = true)
    ∧ sendCommand_clean ("ATZ".toList) ("ATZ\x0dOK\x0d\x0d>".toList) = ("ATZOK".toList)
    ∧ ("ATZ".toList) <+:
        sendCommand_clean ("ATZ".toList) ("ATZ\x0dOK\x0d\x0d>".toList) := by
  refine ⟨?_, by decide, by decide⟩
  intro command response
  rw [List.all_eq_true]
  intro c hc
  have hstep : ∀ x : List Char,
      c ∈ (if beginsWith command x = true then pyStrip x else x) → c ∈ x := by
    intro x hx
    split at hx
    · exact mem_pyStrip hx
    · exact hx
  unfold sendCommand_clean at hc
  have hmem : c ∈ response.filter (fun c => !(c = '\x0d' || c = '\n' || c = '>')) :=
    mem_pyStrip (hstep _ hc)
  exact (List.mem_filter.mp hmem).2

/-! C4 — sentinel tokens and odd length yield the empty byte sequence. -/

/-- C4: `_parse_hex_response` returns the empty byte sequence whenever the
space/CR/LF-stripped text contains one of the sentinel tokens NODATA,
ERROR, TIMEOUT, ?, UNABLETOCONNECT, BUSBUSY compared case-insensitively,
and also whenever the cleaned text has odd length. -/
theorem parse_hex_sentinel_or_odd_empty (s : List Char)
    (h : (∃ e ∈ errorTokens, e <:+: (cleanHex s).map Char.toUpper) ∨
      (cleanHex s).length % 2 = 1) :
    parse_hex_response s = [] := by
  unfold parse_hex_response
  by_cases herr : hasErrToken (cleanHex s) = true
  · simp [herr]
  · rcases h with h | h
    · exfalso
      apply herr
      unfold hasErrToken
      rw [List.any_eq_true]
      obtain ⟨e, he, hinf⟩ := h
      exact ⟨e, he, (containsTok_iff _ _).mpr hinf⟩
    · rw [if_neg herr, if_neg (by omega)]

/-- Witness for C4 at the concrete reply "NO DATA" (its cleaned text
contains the sentinel NODATA). -/
theorem parse_hex_sentinel_or_odd_empty_witness :
    parse_hex_response ("NO DATA".toList) = [] :=
  parse_hex_sentinel_or_odd_empty ("NO DATA".toList) (by decide)

/-! C5 — hex decoding inverts the byte-to-hex encoding. -/

/-- Uppercase hexadecimal digit character for a value below 16. -/
def hexDigitU (n : Nat) : Char :=
  if n < 10 then Char.ofNat ('0'.toNat + n) else Char.ofNat ('A'.toNat + (n - 10))

/-- Modelled from the spec: the byte-to-two-uppercase-hex-character
encoding used to build reply strings (the byte-to-hex encoding of testable
property §8; it agrees with the `02X`f-string formatting the source uses
for parameter numbers). -/
def encodeByte (b : Nat) : List Char := [hexDigitU (b / 16), hexDigitU (b % 16)]

/-- Encoding of a whole byte sequence as reply text. -/
def encodeBytes (bs : List Nat) : List Char := bs.flatMap encodeByte

theorem hexVal_hexDigitU : ∀ n, n < 16 → hexVal (hexDigitU n) = some n := by
  decide

theorem hexDigitU_kept : ∀ n, n < 16 →
    (!(hexDigitU n = ' ' || hexDigitU n = '\x0d' || hexDigitU n = '\n')) = true := by
  decide

theorem mem_encodeBytes {c : Char} {bs : List Nat} (hb : ∀ b ∈ bs, b < 256)
    (hc : c ∈ encodeBytes bs) : ∃ d, d < 16 ∧ c = hexDigitU d := by
  unfold encodeBytes at hc
  rw [List.mem_flatMap] at hc
  obtain ⟨b, hbmem, hcb⟩ := hc
  have hblt := hb b hbmem
  unfold encodeByte at hcb
  simp only [List.mem_cons, List.mem_singleton, List.not_mem_nil, or_false] at hcb
  rcases hcb with rfl | rfl
  · exact ⟨b / 16, by omega, rfl⟩
  · exact ⟨b % 16, by omega, rfl⟩

theorem cleanHex_encode (bs : List Nat) (hb : ∀ b ∈ bs, b < 256) :
    cleanHex (encodeBytes bs) = encodeBytes bs := by
  unfold cleanHex
  rw [List.filter_eq_self]
  intro c hc
  obtain ⟨d, hd, rfl⟩ := mem_encodeBytes hb hc
  exact hexDigitU_kept d hd

theorem encodeBytes_length (bs : List Nat) :
    (encodeBytes bs).length = 2 * bs.length := by
  induction bs with
  | nil => rfl
  | cons b t ih =>
    simp only [encodeBytes, List.flatMap_cons] at ih ⊢
    simp only [List.length_append, ih, encodeByte, List.length_cons,
      List.length_singleton, List.length_nil]
    omega

theorem hexPairs_encode (bs : List Nat) (hb : ∀ b ∈ bs, b < 256) :
    hexPairs (encodeBytes bs) = some (bs.map (fun b => (b : Int))) := by
  induction bs with
  | nil => rfl
  | cons b t ih =>
    have hblt : b < 256 := hb b (by simp)
    have hstep : encodeBytes (b :: t) =
        hexDigitU (b / 16) :: hexDigitU (b % 16) :: encodeBytes t := by
      simp [encodeBytes, encodeByte]
    rw [hstep]
    have hih := ih (fun x hx => hb x (by simp [hx]))
    unfold hexPairs
    rw [hih]
    unfold pyIntHex2
    rw [hexVal_hexDigitU (b / 16) (by omega), hexVal_hexDigitU (b % 16) (by omega)]
    have hval : (16 * (b / 16) + b % 16 : Nat) = b := by omega
    simp [hval]

/-- C5: decoding with `_parse_hex_response` inverts the byte-to-hex
encoding: for any byte sequence whose encoding contains no sentinel error
token, parsing the encoded text returns the original bytes. -/
theorem parse_encode_roundtrip (bs : List Nat) (hb : ∀ b ∈ bs, b < 256)
    (hs : ¬ ∃ e ∈ errorTokens, e <:+: (encodeBytes bs).map Char.toUpper) :
    parse_hex_response (encodeBytes bs) = bs.map (fun b => (b : Int)) := by
  have hclean : cleanHex (encodeBytes bs) = encodeBytes bs := cleanHex_encode bs hb
  have herr : hasErrToken (encodeBytes bs) = false := by
    rw [Bool.eq_false_iff]
    intro hcon
    apply hs
    unfold hasErrToken at hcon
    rw [List.any_eq_true] at hcon
    obtain ⟨e, he, h2⟩ := hcon
    exact ⟨e, he, (containsTok_iff _ _).mp h2⟩
  have hlen : (encodeBytes bs).length % 2 = 0 := by
    rw [encodeBytes_length]; omega
  simp only [parse_hex_response, hclean, herr, Bool.false_eq_true, if_false,
    hlen, if_pos, hexPairs_encode bs hb, Option.getD_some]

/-- Witness for C5 at the payload bytes 0x1A 0xF8 (encoded text "1AF8"). -/
theorem parse_encode_roundtrip_witness :
    parse_hex_response (encodeBytes [26, 248]) = [26, 248] := by
  have h := parse_encode_roundtrip [26, 248] (by decide) (by decide)
  simpa using h

/-! C6 — diagnostic trouble code decoding.  The rendering of the 14-bit
code value goes through `Nat.toDigits`, so we first pin down its output on
values below 16^4 by showing the digit recursion is fuel-independent. -/

theorem toDigitsCore_fuel_eq (b : Nat) (hb : 2 ≤ b) :
    ∀ fuel fuel' n ds, n < b ^ fuel → n < b ^ fuel' → 0 < fuel → 0 < fuel' →
      Nat.toDigitsCore b fuel n ds = Nat.toDigitsCore b fuel' n ds := by
  intro fuel
  induction fuel with
  | zero => intro _ _ _ _ _ h; omega
  | succ f ih =>
    intro fuel' n ds hn hn' _ hf'
    cases fuel' with
    | zero => omega
    | succ f' =>
      show Nat.toDigitsCore b (f + 1) n ds = Nat.toDigitsCore b (f' + 1) n ds
      rw [Nat.toDigitsCore, Nat.toDigitsCore]
      by_cases hq : n / b = 0
      · simp only [hq, if_pos]
      · simp only [hq, if_neg, ite_false]
        have hdiv : ∀ k, n < b ^ (k + 1) → n / b < b ^ k := by
          intro k hk
          rw [Nat.div_lt_iff_lt_mul (by omega)]
          calc n < b ^ (k + 1) := hk
          _ = b ^ k * b := by rw [pow_succ]
        have hfpos : ∀ k, n < b ^ (k + 1) → 0 < k := by
          intro k hk
          rcases Nat.eq_zero_or_pos k with rfl | h
          · exact absurd (Nat.div_eq_of_lt (by simpa using hk)) hq
          · exact h
        exact ih f' (n / b) _ (hdiv f hn) (hdiv f' hn') (hfpos f hn) (hfpos f' hn')

theorem toDigits_eq_fuel (n fuel : Nat) (h : n < 16 ^ fuel) (hf : 0 < fuel) :
    Nat.toDigits 16 n = Nat.toDigitsCore 16 fuel n [] := by
  have hself : n < 16 ^ (n + 1) := by
    calc n < 16 ^ n := Nat.lt_pow_self (by omega) n
    _ ≤ 16 ^ (n + 1) := Nat.pow_le_pow_right (by omega) (by omega)
  exact toDigitsCore_fuel_eq 16 (by omega) (n + 1) fuel n [] hself h (by omega) hf

theorem upHex_eq_hexDigitU : ∀ d, d < 16 →
    Char.toUpper (Nat.digitChar d) = hexDigitU d := by
  decide

/-- On values below 16^4, the Python `04X` formatting of a natural number
is its four base-16 digits rendered uppercase. -/
theorem pyFmt04X_digits (v : Nat) (hv : v < 65536) :
    pyFmt04X ((v : Nat) : Int) =
      [hexDigitU (v / 4096 % 16), hexDigitU (v / 256 % 16),
       hexDigitU (v / 16 % 16), hexDigitU (v % 16)] := by
  have h0 : ¬ ((v : Int) < 0) := by
    simp [Int.not_lt, Int.natCast_nonneg]
  unfold pyFmt04X
  rw [if_neg h0, Int.toNat_natCast]
  unfold pyHexStr
  rw [toDigits_eq_fuel v 4 (by omega) (by omega)]
  rw [Nat.toDigitsCore]
  by_cases h1 : v / 16 = 0
  · rw [if_pos h1]
    rw [show v / 4096 % 16 = 0 by omega, show v / 256 % 16 = 0 by omega,
      show v / 16 % 16 = 0 by omega, show v % 16 = v by omega]
    simp only [List.map_cons, List.map_nil, zfill, List.length_cons,
      List.length_nil]
    rw [upHex_eq_hexDigitU v (by omega)]
    rfl
  · rw [if_neg h1, Nat.toDigitsCore]
    by_cases h2 : v / 16 / 16 = 0
    · rw [if_pos h2]
      rw [show v / 4096 % 16 = 0 by omega, show v / 256 % 16 = 0 by omega]
      simp only [List.map_cons, List.map_nil, zfill, List.length_cons,
        List.length_nil]
      rw [upHex_eq_hexDigitU (v / 16 % 16) (by omega),
        upHex_eq_hexDigitU (v % 16) (by omega)]
      rw [show v / 16 % 16 = v / 16 % 16 from rfl]
      rfl
    · rw [if_neg h2, Nat.toDigitsCore]
      by_cases h3 : v / 16 / 16 / 16 = 0
      · rw [if_pos h3]
        rw [show v / 4096 % 16 = 0 by omega]
        simp only [List.map_cons, List.map_nil, zfill, List.length_cons,
          List.length_nil]
        rw [upHex_eq_hexDigitU (v / 16 / 16 % 16) (by omega),
          upHex_eq_hexDigitU (v / 16 % 16) (by omega),
          upHex_eq_hexDigitU (v % 16) (by omega)]
        rw [show v / 16 / 16 % 16 = v / 256 % 16 by omega]
        rfl
      · rw [if_neg h3, Nat.toDigitsCore]
        rw [if_pos (by omega : v / 16 / 16 / 16 / 16 = 0)]
        simp only [List.map_cons, List.map_nil, zfill, List.length_cons,
          List.length_nil]
        rw [upHex_eq_hexDigitU (v / 16 / 16 / 16 % 16) (by omega),
          upHex_eq_hexDigitU (v / 16 / 16 % 16) (by omega),
          upHex_eq_hexDigitU (v / 16 % 16) (by omega),
          upHex_eq_hexDigitU (v % 16) (by omega)]
        rw [show v / 16 / 16 / 16 % 16 = v / 4096 % 16 by omega,
          show v / 16 / 16 % 16 = v / 256 % 16 by omega]
        rfl

/-- Claim-side reading of a rendered hexadecimal digit string, most
significant digit first. -/
def hexStrVal (s : List Char) : Nat :=
  s.foldl (fun a c => 16 * a + (hexVal c).getD 0) 0

theorem hexDigitU_mem_charset : ∀ d, d < 16 →
    hexDigitU d ∈ ("0123456789ABCDEF".toList) := by
  decide

set_option maxRecDepth 4000 in
theorem decode_dtc_letter : ∀ b1, b1 < 256 →
    system_map (Int.land ((b1 : Nat) : Int) 0xC0 >>> (6 : Int)) =
      (if b1 / 64 = 0 then 'P' else if b1 / 64 = 1 then 'C'
       else if b1 / 64 = 2 then 'B' else 'U') := by
  decide

set_option maxRecDepth 4000 in
theorem decode_dtc_land63 : ∀ b1, b1 < 256 →
    Int.land ((b1 : Nat) : Int) 0x3F = ((b1 % 64 : Nat) : Int) := by
  decide

set_option maxRecDepth 4000 in
theorem decode_dtc_shift_lor : ∀ m, m < 64 → ∀ b2, b2 < 256 →
    Int.lor (((m : Nat) : Int) <<< (8 : Int)) ((b2 : Nat) : Int) =
      ((m * 256 + b2 : Nat) : Int) := by
  decide

/-- The 0,0-pair skipping of `get_dtcs`: a (0, 0) byte pair sitting at an
even (pair-aligned) offset contributes nothing to the decoded code list. -/
theorem dtcCodes_skip_zero : ∀ (l r : List Int), l.length % 2 = 0 →
    dtcCodes (l ++ (0 : Int) :: (0 : Int) :: r) = dtcCodes (l ++ r)
  | [], r, _ => by simp [dtcCodes]
  | [x], _, h => by simp at h
  | x :: y :: l, r, h => by
    have ih := dtcCodes_skip_zero l r (by
      simp only [List.length_cons] at h
      omega)
    simp only [List.cons_append, dtcCodes, List.append_eq]
    rw [ih]

/-- C6: for byte fields, `_decode_dtc` yields the system letter selected by
the top two bits of the first byte via P/C/B/U, followed by four uppercase
hexadecimal digits whose value is the remaining 14 bits
((b1 mod 64) * 256 + b2); in particular [0x01, 0x23] decodes to "P0123"
and [0x41, 0x23] to "C0123"; and the `get_dtcs` pairing loop skips (0, 0)
pairs without decoding them. -/
theorem decode_dtc_spec :
    (∀ b1 b2 : Nat, b1 < 256 → b2 < 256 →
      ∃ ds, decode_dtc [((b1 : Nat) : Int), ((b2 : Nat) : Int)] =
          (if b1 / 64 = 0 then 'P' else if b1 / 64 = 1 then 'C'
           else if b1 / 64 = 2 then 'B' else 'U') :: ds
        ∧ ds.length = 4
        ∧ (∀ c ∈ ds, c ∈ ("0123456789ABCDEF".toList))
        ∧ hexStrVal ds = (b1 % 64) * 256 + b2)
    ∧ decode_dtc [1, 35] = ("P0123".toList)
    ∧ decode_dtc [65, 35] = ("C0123".toList)
    ∧ (∀ l r : List Int, l.length % 2 = 0 →
        dtcCodes (l ++ (0 : Int) :: (0 : Int) :: r) = dtcCodes (l ++ r)) := by
  refine ⟨?_, by decide, by decide, dtcCodes_skip_zero⟩
  intro b1 b2 hb1 hb2
  have hm : b1 % 64 < 64 := by omega
  have hv : (b1 % 64) * 256 + b2 < 65536 := by omega
  refine ⟨pyFmt04X (((b1 % 64) * 256 + b2 : Nat) : Int), ?_, ?_, ?_, ?_⟩
  · simp only [decode_dtc]
    rw [decode_dtc_letter b1 hb1, decode_dtc_land63 b1 hb1,
      decode_dtc_shift_lor (b1 % 64) hm b2 hb2]
  · rw [pyFmt04X_digits _ hv]
    rfl
  · rw [pyFmt04X_digits _ hv]
    intro c hc
    simp only [List.mem_cons, List.not_mem_nil, or_false] at hc
    rcases hc with rfl | rfl | rfl | rfl
    · exact hexDigitU_mem_charset _ (by omega)
    · exact hexDigitU_mem_charset _ (by omega)
    · exact hexDigitU_mem_charset _ (by omega)
    · exact hexDigitU_mem_charset _ (by omega)
  · rw [pyFmt04X_digits _ hv]
    unfold hexStrVal
    simp only [List.foldl_cons, List.foldl_nil]
    rw [hexVal_hexDigitU _ (by omega : ((b1 % 64) * 256 + b2) / 4096 % 16 < 16),
      hexVal_hexDigitU _ (by omega : ((b1 % 64) * 256 + b2) / 256 % 16 < 16),
      hexVal_hexDigitU _ (by omega : ((b1 % 64) * 256 + b2) / 16 % 16 < 16),
      hexVal_hexDigitU _ (by omega : ((b1 % 64) * 256 + b2) % 16 < 16)]
    simp only [Option.getD_some]
    omega

/-- Witness for C6 at the byte pair (0x01, 0x23). -/
theorem decode_dtc_spec_witness :
    ∃ ds, decode_dtc [((1 : Nat) : Int), ((35 : Nat) : Int)] =
        (if 1 / 64 = 0 then 'P' else if 1 / 64 = 1 then 'C'
         else if 1 / 64 = 2 then 'B' else 'U') :: ds
      ∧ ds.length = 4
      ∧ (∀ c ∈ ds, c ∈ ("0123456789ABCDEF".toList))
      ∧ hexStrVal ds = (1 % 64) * 256 + 35 :=
  decode_dtc_spec.1 1 35 (by omega) (by omega)

/-! C7 — supported-parameter bitmap interpretation. -/

theorem int_land_mask_ne (d : Nat) (b : Nat) (hb : b < 8) :
    (Int.land ((d : Nat) : Int) (((0x80 >>> b : Nat) : Int)) ≠ 0) ↔
      Nat.testBit d (7 - b) = true := by
  have h1 : Int.land ((d : Nat) : Int) (((0x80 >>> b : Nat) : Int)) =
      ((d &&& (0x80 >>> b) : Nat) : Int) := rfl
  have h2 : (0x80 >>> b) = 2 ^ (7 - b) := by
    interval_cases b <;> rfl
  rw [h1, h2, ne_eq, Int.natCast_eq_zero, Nat.and_two_pow]
  cases hd : Nat.testBit d (7 - b) <;> simp [Nat.pow_eq_zero]

theorem mem_bitBlock (a i0 : Nat) (d : Nat) (n : Nat) :
    (n ∈ (List.range 8).filterMap (fun bit_idx =>
      if Int.land ((d : Nat) : Int) (((0x80 >>> bit_idx : Nat) : Int)) ≠ 0 then
        (if a + i0 * 8 + bit_idx + 1 ≤ 255 then
          some (a + i0 * 8 + bit_idx + 1) else none)
      else none)) ↔
    ∃ b, b < 8 ∧ n = a + i0 * 8 + b + 1 ∧ n ≤ 255 ∧
      Nat.testBit d (7 - b) = true := by
  rw [List.mem_filterMap]
  constructor
  · rintro ⟨b, hb, hf⟩
    rw [List.mem_range] at hb
    by_cases ht : Int.land ((d : Nat) : Int) (((0x80 >>> b : Nat) : Int)) ≠ 0
    · rw [if_pos ht] at hf
      by_cases hc : a + i0 * 8 + b + 1 ≤ 255
      · rw [if_pos hc] at hf
        have hn := (Option.some_inj.mp hf).symm
        exact ⟨b, hb, hn, hn ▸ hc, (int_land_mask_ne d b hb).mp ht⟩
      · rw [if_neg hc] at hf; cases hf
    · rw [if_neg ht] at hf; cases hf
  · rintro ⟨b, hb, rfl, hc, hbit⟩
    refine ⟨b, List.mem_range.mpr hb, ?_⟩
    rw [if_pos ((int_land_mask_ne d b hb).mpr hbit), if_pos hc]

/-- C7 counterexample: at anchor 0xE0 with bitmap bytes 00 00 00 01, bit 7
of byte 3 (most-significant-bit first) is set, so the claim reports
parameter number 0xE0 + 3*8 + 7 + 1 = 256; the code caps at 255 and
reports nothing. -/
theorem bitmapPids_cap_counterexample :
    Nat.testBit 1 (7 - 7) = true ∧
    (256 : Nat) ∉ bitmapPids 224 0 [0, 0, 0, ((1 : Nat) : Int)] := by
  decide

/-- C7 (amended): a parameter number is reported from a 4-byte bitmap at
anchor `a` exactly when it is `a + i*8 + b + 1` for a set bit `b`
(most-significant-bit first) of byte `i` AND it does not exceed 255; the
bitmap FF 00 00 01 at anchor 0 yields 1..8 and 32; and a reply classified
as no-data contributes no parameter numbers. -/
theorem get_supported_pids_bitmap_spec :
    (∀ (a d0 d1 d2 d3 n : Nat),
      n ∈ bitmapPids a 0 [((d0 : Nat) : Int), ((d1 : Nat) : Int),
            ((d2 : Nat) : Int), ((d3 : Nat) : Int)] ↔
      ∃ i b, i < 4 ∧ b < 8 ∧ n = a + i * 8 + b + 1 ∧ n ≤ 255 ∧
        Nat.testBit ([d0, d1, d2, d3].getD i 0) (7 - b) = true)
    ∧ bitmapPids 0 0 [255, 0, 0, 1] = [1, 2, 3, 4, 5, 6, 7, 8, 32]
    ∧ (∀ base resp, parse_hex_response resp = [] →
        pidNumsForRange base resp = []) := by
  refine ⟨?_, by decide, ?_⟩
  · intro a d0 d1 d2 d3 n
    show n ∈ _ ++ (_ ++ (_ ++ (_ ++ bitmapPids a 4 []))) ↔ _
    simp only [bitmapPids, List.append_nil, List.mem_append, mem_bitBlock]
    constructor
    · rintro (⟨b, hb, h1, h2, h3⟩ | ⟨b, hb, h1, h2, h3⟩ |
        ⟨b, hb, h1, h2, h3⟩ | ⟨b, hb, h1, h2, h3⟩)
      · exact ⟨0, b, by omega, hb, h1, h2, h3⟩
      · exact ⟨1, b, by omega, hb, h1, h2, h3⟩
      · exact ⟨2, b, by omega, hb, h1, h2, h3⟩
      · exact ⟨3, b, by omega, hb, h1, h2, h3⟩
    · rintro ⟨i, b, hi, hb, h1, h2, h3⟩
      interval_cases i
      · exact Or.inl ⟨b, hb, h1, h2, h3⟩
      · exact Or.inr (Or.inl ⟨b, hb, h1, h2, h3⟩)
      · exact Or.inr (Or.inr (Or.inl ⟨b, hb, h1, h2, h3⟩))
      · exact Or.inr (Or.inr (Or.inr ⟨b, hb, h1, h2, h3⟩))
  · intro base resp h
    simp only [pidNumsForRange, h]
    split
    · simp
    · rfl

/-- Witness for C7's no-data conjunct at the reply "NODATA". -/
theorem get_supported_pids_bitmap_spec_witness :
    pidNumsForRange 0 ("NODATA".toList) = [] :=
  get_supported_pids_bitmap_spec.2.2 0 ("NODATA".toList) (by decide)

/-! C8 — stream worker inter-tick sleep. -/

/-- C8 counterexample: for interval 1 and a pass that took 1/2 second, the
claimed sleep max(0.1, interval − elapsed) is 1/2, but the worker sleeps
max(0.1, 1 − 0.1) = 9/10: the subtracted quantity is the constant 0.1, not
the elapsed processing time. -/
theorem stream_sleep_counterexample :
    stream_sleep 1 ≠ max (1 / 10 : ℚ) (1 - 1 / 2) := by
  unfold stream_sleep
  intro h
  rw [max_eq_right (by norm_num : (1 / 10 : ℚ) ≤ 1 - 1 / 10),
    max_eq_right (by norm_num : (1 / 10 : ℚ) ≤ 1 - 1 / 2)] at h
  norm_num at h

/-- C8 (amended): after a full pass the worker sleeps
max(0.1, interval − 0.1) — at least 0.1 seconds and, whenever the interval
is at least 0.2, exactly interval − 0.1 — independent of how long the pass
took. -/
theorem stream_sleep_amended (interval : ℚ) :
    1 / 10 ≤ stream_sleep interval ∧
    (1 / 5 ≤ interval → stream_sleep interval = interval - 1 / 10) := by
  constructor
  · exact le_max_left _ _
  · intro h
    exact max_eq_right (by linarith)

/-- Witness for C8 at interval 1. -/
theorem stream_sleep_amended_witness : stream_sleep 1 = 1 - 1 / 10 :=
  (stream_sleep_amended 1).2 (by norm_num)

/-! C9 — bounded history ring buffers. -/

theorem dequeAppend_eq_drop {α : Type} (m : Nat) (q : List α) (x : α) :
    dequeAppend m q x = (q ++ [x]).drop ((q.length + 1) - m) := by
  show (if m < (q ++ [x]).length then (q ++ [x]).drop ((q ++ [x]).length - m)
    else (q ++ [x])) = (q ++ [x]).drop ((q.length + 1) - m)
  have hlen : (q ++ [x]).length = q.length + 1 := by simp
  rw [hlen]
  by_cases h : m < q.length + 1
  · rw [if_pos h]
  · rw [if_neg h, show q.length + 1 - m = 0 by omega, List.drop_zero]

theorem foldl_dequeAppend {α : Type} (m : Nat) (hm : 0 < m) :
    ∀ (xs q : List α), q.length ≤ m →
      xs.foldl (dequeAppend m) q = (q ++ xs).drop ((q.length + xs.length) - m) := by
  intro xs
  induction xs with
  | nil =>
    intro q hq
    simp only [List.foldl_nil, List.append_nil, List.length_nil]
    rw [show q.length + 0 - m = 0 by omega, List.drop_zero]
  | cons x t ih =>
    intro q hq
    rw [List.foldl_cons, dequeAppend_eq_drop m q x]
    have hlen : ((q ++ [x]).drop ((q.length + 1) - m)).length ≤ m := by
      simp only [List.length_drop, List.length_append, List.length_cons,
        List.length_nil]
      omega
    rw [ih _ hlen]
    rw [← List.drop_append_of_le_length
      (show (q.length + 1) - m ≤ (q ++ [x]).length by
        simp only [List.length_append, List.length_cons, List.length_nil]
        omega)]
    rw [List.drop_drop]
    rw [show (q ++ [x]) ++ t = q ++ x :: t by simp]
    congr 1
    simp only [List.length_drop, List.length_append, List.length_cons,
      List.length_nil]
    omega

/-- C9: the per-parameter value history and the matching timestamp history
never exceed 50 entries; after at least 50 appended ticks the value history
is exactly the 50 most recent values in arrival order (the oldest entries
having been evicted first); and a timestamp stream appended in lockstep
keeps the same length as the value history. -/
theorem history_capacity_spec {α β : Type} (xs : List α) (ts : List β)
    (hlen : ts.length = xs.length) :
    (historyAfter 50 xs).length ≤ 50
    ∧ (50 ≤ xs.length → historyAfter 50 xs = xs.drop (xs.length - 50))
    ∧ (historyAfter 50 ts).length = (historyAfter 50 xs).length := by
  have hx : historyAfter 50 xs = xs.drop (xs.length - 50) := by
    unfold historyAfter
    rw [foldl_dequeAppend 50 (by omega) xs [] (by simp)]
    simp
  have ht : historyAfter 50 ts = ts.drop (ts.length - 50) := by
    unfold historyAfter
    rw [foldl_dequeAppend 50 (by omega) ts [] (by simp)]
    simp
  refine ⟨?_, fun _ => hx, ?_⟩
  · rw [hx, List.length_drop]
    omega
  · rw [hx, ht, List.length_drop, List.length_drop, hlen]

/-- Witness for C9 at 51 appended ticks: exactly the last 50 remain. -/
theorem history_capacity_spec_witness :
    historyAfter 50 (List.range 51) = (List.range 51).drop 1 := by
  have h := (history_capacity_spec (List.range 51) (List.range 51) rfl).2.1
    (by simp)
  simpa using h

/-! C10 — totality and value range of the hex frame decoder. -/

theorem hexVal_lt {c : Char} {x : Nat} (h : hexVal c = some x) : x < 16 := by
  unfold hexVal at h
  split_ifs at h <;> first
    | (injection h with h'; omega)
    | exact Option.noConfusion h

theorem pyIntHex2_bounds {c1 c2 : Char} {v : Int} (h : pyIntHex2 c1 c2 = some v) :
    -15 ≤ v ∧ v ≤ 255 := by
  unfold pyIntHex2 at h
  rcases e1 : hexVal c1 with _ | v1 <;> rcases e2 : hexVal c2 with _ | v2 <;>
      rw [e1, e2] at h <;> simp only [Option.map] at h <;>
      (try split_ifs at h) <;>
      first
        | exact Option.noConfusion h
        | (injection h with h'
           subst h'
           first
             | (have hb1 := hexVal_lt e1
                have hb2 := hexVal_lt e2
                omega)
             | (have hb := hexVal_lt e2
                omega)
             | (have hb := hexVal_lt e1
                omega))

theorem hexPairs_bounds : ∀ (s : List Char) (l : List Int),
    hexPairs s = some l → ∀ v ∈ l, -15 ≤ v ∧ v ≤ 255
  | [], _, h => by
    cases h
    intro v hv
    simp at hv
  | [_], _, h => by cases h
  | c1 :: c2 :: rest, l, h => by
    unfold hexPairs at h
    rcases e1 : pyIntHex2 c1 c2 with _ | v0
    · rw [e1] at h
      simp at h
    · rcases e2 : hexPairs rest with _ | vs
      · rw [e1, e2] at h
        simp at h
      · rw [e1, e2] at h
        simp only [Option.some.injEq] at h
        subst h
        intro v hv
        rcases List.mem_cons.mp hv with rfl | hmem
        · exact pyIntHex2_bounds e1
        · exact hexPairs_bounds rest vs e2 v hmem

/-- C10 counterexample: the input "-1" cleans to itself, has even length
and no sentinel token, and Python int("-1", 16) parses the pair to −1, so
the decoder returns a value outside 0..255 for an input whose 2-character
group is not a pair of hexadecimal digits. -/
theorem parse_hex_range_counterexample :
    parse_hex_response ("-1".toList) = [-1] ∧ ((-1 : Int) < 0) := by
  decide

/-- C10 (amended): hex-frame decoding is total, and every integer it
returns lies between −15 and 255: a full two-hex-digit pair contributes a
value in 0..255, and the only other parsable groups — a sign or stray
whitespace character next to a single hex digit — contribute values in
−15..15. -/
theorem parse_hex_range (s : List Char) :
    ∀ v ∈ parse_hex_response s, -15 ≤ v ∧ v ≤ 255 := by
  intro v hv
  simp only [parse_hex_response] at hv
  split_ifs at hv
  · simp at hv
  · rcases e : hexPairs (cleanHex s) with _ | l
    · rw [e] at hv
      simp at hv
    · rw [e] at hv
      simp only [Option.getD_some] at hv
      exact hexPairs_bounds _ l e v hv
  · simp at hv

/-- Witness for C10 at the input "FF" (parsed to the single byte 255). -/
theorem parse_hex_range_witness : -15 ≤ (255 : Int) ∧ (255 : Int) ≤ 255 :=
  parse_hex_range ("FF".toList) 255 (by decide)

/-! C1 — signal decoding of parameter 010C. -/

/-- C1: evaluating `read_pid` for parameter "010C" on the reply
"410C1AF8" (payload bytes 0x1A 0xF8 after the echoed mode+PID bytes).
The spec's expected signal value is (0x1A*256 + 0xF8)/4 = 1726.0, but
`signals_values` slices the `bits_list` pair list instead of the bit
string, so `int(.., 2)` is applied to a list and raises TypeError; the
reading degrades to the single catch-all raw-bitstring signal and no
emitted signal carries the numeric value 1726. -/
theorem read_pid_010C_fallback :
    read_pid pid010C ("010C".toList) ("410C1AF8".toList) =
      some { pid := "010C".toList
           , name := "Engine RPM".toList
           , signals := [{ value := .raw ("01000001000011000001101011111000".toList)
                         , path := "everything".toList
                         , name := "everything".toList
                         , unit := [] }]
           , raw_data := "410C1AF8".toList }
    ∧ ((read_pid pid010C ("010C".toList) ("410C1AF8".toList)).map
        (fun r => r.signals.all (fun sv => decide (sv.value ≠ SigVal.num 1726)))) =
      some true := by
  exact ⟨by decide, by decide⟩

end OBD
